import Mathlib

/-! Verification of the hub-agent admission review and API-key ACP handler.

Shallow embedding of the admission review / policy-injection engine of the
hub-agent-kubernetes repository, and of its API-key access-control handler
(`pkg/acp/apikey/api_key.go` and the Nginx ingress reviewer bundled with it),
together with theorems settling the specification claims about them.

Go `map[string]string` values are modelled as association lists observed
through first-match lookup, with `insertA` (replace-or-append, the semantics
of Go map assignment at the lookup level) and `eraseA` (Go `delete`).
-/

namespace HubAgent

/-- A Go `map[string]string`, observed through first-match lookup. -/
abbrev AnnoMap := List (String × String)

/-- First-match lookup, `m[k]` with presence information (`v, ok := m[k]`). -/
def lookupA {α : Type} : List (String × α) → String → Option α
  | [], _ => none
  | (k, v) :: rest, q => if k = q then some v else lookupA rest q

/-- Go map indexing `m[k]` on a `map[string]string`: the zero value `""` when
the key is absent. -/
def getA (m : AnnoMap) (q : String) : String :=
  (lookupA m q).getD ""

/-- Go map assignment `m[k] = v`: replace the binding when present, else add it. -/
def insertA {α : Type} : List (String × α) → String → α → List (String × α)
  | [], k, v => [(k, v)]
  | (k', v') :: rest, k, v =>
    if k' = k then (k, v) :: rest else (k', v') :: insertA rest k v

/-- Go `delete(m, k)`. -/
def eraseA {α : Type} : List (String × α) → String → List (String × α)
  | [], _ => []
  | (k', v') :: rest, k =>
    if k' = k then eraseA rest k else (k', v') :: eraseA rest k

theorem lookupA_insertA {α : Type} (m : List (String × α)) (k : String) (v : α)
    (q : String) :
    lookupA (insertA m k v) q = if q = k then some v else lookupA m q := by
  induction m with
  | nil =>
    by_cases h : q = k
    · simp [insertA, lookupA, h]
    · have h' : ¬ k = q := fun hkq => h hkq.symm
      simp [insertA, lookupA, h, h']
  | cons kv rest ih =>
    obtain ⟨k', v'⟩ := kv
    by_cases hk : k' = k
    · subst hk
      by_cases hq : q = k'
      · subst hq; simp [insertA, lookupA]
      · have hq' : ¬ k' = q := fun h => hq h.symm
        simp [insertA, lookupA, hq, hq']
    · by_cases hq : k' = q
      · have hne : ¬ q = k := fun h => hk (hq.trans h)
        simp [insertA, lookupA, hk, hq, hne]
      · simp [insertA, lookupA, hk, hq, ih]

theorem lookupA_eraseA {α : Type} (m : List (String × α)) (k q : String) :
    lookupA (eraseA m k) q = if q = k then none else lookupA m q := by
  induction m with
  | nil => simp [eraseA, lookupA]
  | cons kv rest ih =>
    obtain ⟨k', v'⟩ := kv
    by_cases hk : k' = k
    · subst hk
      by_cases hq : q = k'
      · subst hq; simp [eraseA, lookupA, ih]
      · have hq' : ¬ k' = q := fun h => hq h.symm
        simp [eraseA, lookupA, hq, hq', ih]
    · by_cases hq : k' = q
      · have hne : ¬ q = k := fun h => hk (hq.trans h)
        simp [eraseA, lookupA, hk, hq, hne]
      · simp [eraseA, lookupA, hk, hq, ih]

/-! ## Nginx ingress reviewer (`reviewer` package, `NginxIngress`)

The four agent-managed nginx annotation keys, the compiled snippet record,
and the patch/diff core of `NginxIngress.Review` (`noPatchRequired`,
`setAnnotations`, `clearEmptyAnnotations`). -/

def authURLKey : String := "nginx.ingress.kubernetes.io/auth-url"

def configSnippetKey : String := "nginx.ingress.kubernetes.io/configuration-snippet"

def serverSnippetsKey : String := "nginx.org/server-snippets"

def locationSnippetsKey : String := "nginx.org/location-snippets"

/-- The four agent-managed nginx annotation keys. -/
def managedKeys : List String :=
  [authURLKey, configSnippetKey, serverSnippetsKey, locationSnippetsKey]

/-- Compiled desired state for the Nginx flavor (`nginxSnippets` in the source). -/
structure nginxSnippets where
  AuthURL : String
  ConfigurationSnippet : String
  ServerSnippets : String
  LocationSnippets : String
  deriving DecidableEq

/-- The zero value of `nginxSnippets` (Go `var snippets nginxSnippets`). -/
def emptySnippets : nginxSnippets :=
  { AuthURL := "", ConfigurationSnippet := "", ServerSnippets := ""
    LocationSnippets := "" }

/-- Source `noPatchRequired`: compares the four managed annotations (missing key = `""`,
Go map indexing) against the compiled snippets. -/
def noPatchRequired (anno : AnnoMap) (snippets : nginxSnippets) : Bool :=
  getA anno authURLKey == snippets.AuthURL &&
  getA anno configSnippetKey == snippets.ConfigurationSnippet &&
  getA anno serverSnippetsKey == snippets.ServerSnippets &&
  getA anno locationSnippetsKey == snippets.LocationSnippets

/-- One `if`-block of `clearEmptyAnnotations`: delete `k` when it maps to `""`. -/
def clearKey (anno : AnnoMap) (k : String) : AnnoMap :=
  if getA anno k = "" then eraseA anno k else anno

/-- Source `clearEmptyAnnotations`: its four `if`-blocks, in source order
(server snippets, location snippets, auth URL, configuration snippet). -/
def clearEmptyAnnotations (anno : AnnoMap) : AnnoMap :=
  clearKey (clearKey (clearKey (clearKey anno serverSnippetsKey)
    locationSnippetsKey) authURLKey) configSnippetKey

/-- Source `setAnnotations`: write the four managed annotations then drop empty ones. -/
def setAnnotations (anno : AnnoMap) (snippets : nginxSnippets) : AnnoMap :=
  clearEmptyAnnotations
    (insertA (insertA (insertA (insertA anno
      authURLKey snippets.AuthURL)
      configSnippetKey snippets.ConfigurationSnippet)
      serverSnippetsKey snippets.ServerSnippets)
      locationSnippetsKey snippets.LocationSnippets)

/-- A JSON-patch operation on the reviewed object's annotation map. -/
structure PatchOp where
  op : String
  path : String
  value : AnnoMap
  deriving DecidableEq

/-- The ACP annotation key (`AnnotationNeoAuth`). Its literal value is declared
outside src/ and is irrelevant to every theorem below. -/
def AnnotationNeoAuth : String := "neo.traefik.io/access-control-policy"

/-- The patch-synthesis core of `NginxIngress.Review` (source lines 252-300).
`compile` abstracts the external policy resolution and snippet generation
(`acp.CanonicalName`, `PolicyGetter.GetConfig`, `genSnippets`, `mergeSnippets`
are declared outside src/): it maps a non-empty ACP annotation value to the
compiled-and-merged desired snippets. Modelled from the spec: for an absent or
empty ACP annotation the desired state is the zero `nginxSnippets` value
(the spec's edge policy: "an empty TLS/ACP annotation value, or its total
absence, both mean no enforcement - any previously agent-managed constructs
for that object must then be fully removed from the desired state"). -/
def NginxIngressReview (compile : String → nginxSnippets) (anno : AnnoMap) :
    Option (List PatchOp) :=
  let polName := getA anno AnnotationNeoAuth
  let snippets := if polName = "" then emptySnippets else compile polName
  if noPatchRequired anno snippets then none
  else some [{ op := "replace", path := "/metadata/annotations"
               value := setAnnotations anno snippets }]

theorem noPatchRequired_iff (anno : AnnoMap) (s : nginxSnippets) :
    noPatchRequired anno s = true ↔
      getA anno authURLKey = s.AuthURL ∧
      getA anno configSnippetKey = s.ConfigurationSnippet ∧
      getA anno serverSnippetsKey = s.ServerSnippets ∧
      getA anno locationSnippetsKey = s.LocationSnippets := by
  simp [noPatchRequired, Bool.and_eq_true, beq_iff_eq, and_assoc]

theorem lookupA_clearKey (m : AnnoMap) (k q : String) :
    lookupA (clearKey m k) q =
      if q = k ∧ getA m k = "" then none else lookupA m q := by
  by_cases h : getA m k = ""
  · by_cases hq : q = k
    · simp [clearKey, h, hq, lookupA_eraseA]
    · simp [clearKey, h, hq, lookupA_eraseA]
  · simp [clearKey, h]

theorem getA_clearKey_ne (m : AnnoMap) (k q : String) (h : ¬ q = k) :
    getA (clearKey m k) q = getA m q := by
  simp [getA, lookupA_clearKey, h]

/-- Lookup characterization of `setAnnotations`: each managed key maps to its
compiled value unless that value is empty (then it is absent), and every
other key is untouched. -/
theorem lookupA_setAnnotations (anno : AnnoMap) (s : nginxSnippets) (q : String) :
    lookupA (setAnnotations anno s) q =
      if q = authURLKey then
        (if s.AuthURL = "" then none else some s.AuthURL)
      else if q = configSnippetKey then
        (if s.ConfigurationSnippet = "" then none else some s.ConfigurationSnippet)
      else if q = serverSnippetsKey then
        (if s.ServerSnippets = "" then none else some s.ServerSnippets)
      else if q = locationSnippetsKey then
        (if s.LocationSnippets = "" then none else some s.LocationSnippets)
      else lookupA anno q := by
  have hac : ¬ authURLKey = configSnippetKey := by decide
  have has : ¬ authURLKey = serverSnippetsKey := by decide
  have hal : ¬ authURLKey = locationSnippetsKey := by decide
  have hcs : ¬ configSnippetKey = serverSnippetsKey := by decide
  have hcl : ¬ configSnippetKey = locationSnippetsKey := by decide
  have hsl : ¬ serverSnippetsKey = locationSnippetsKey := by decide
  simp only [setAnnotations, clearEmptyAnnotations]
  by_cases h1 : q = authURLKey
  · subst h1
    simp [lookupA_clearKey, getA_clearKey_ne, getA, lookupA_insertA,
      hac, has, hal, hcs, hcl, hsl]
  · by_cases h2 : q = configSnippetKey
    · subst h2
      simp [lookupA_clearKey, getA_clearKey_ne, getA, lookupA_insertA,
        hac, has, hal, hcs, hcl, hsl, h1]
    · by_cases h3 : q = serverSnippetsKey
      · subst h3
        simp [lookupA_clearKey, getA_clearKey_ne, getA, lookupA_insertA,
          hac, has, hal, hcs, hcl, hsl, h1, h2]
      · by_cases h4 : q = locationSnippetsKey
        · subst h4
          simp [lookupA_clearKey, getA_clearKey_ne, getA, lookupA_insertA,
            hac, has, hal, hcs, hcl, hsl, h1, h2, h3]
        · simp [lookupA_clearKey, getA_clearKey_ne, getA, lookupA_insertA,
            h1, h2, h3, h4]

/-- The compiled snippet value that `setAnnotations` writes under a managed key. -/
def snippetOf (s : nginxSnippets) (k : String) : String :=
  if k = authURLKey then s.AuthURL
  else if k = configSnippetKey then s.ConfigurationSnippet
  else if k = serverSnippetsKey then s.ServerSnippets
  else if k = locationSnippetsKey then s.LocationSnippets
  else ""

/-- The desired snippets that `NginxIngress.Review` compares against: the zero
value when the ACP annotation is absent or empty, else the compiled snippets. -/
def desiredSnippets (compile : String → nginxSnippets) (anno : AnnoMap) :
    nginxSnippets :=
  if getA anno AnnotationNeoAuth = "" then emptySnippets
  else compile (getA anno AnnotationNeoAuth)

theorem NginxIngressReview_eq (compile : String → nginxSnippets) (anno : AnnoMap) :
    NginxIngressReview compile anno =
      (if noPatchRequired anno (desiredSnippets compile anno) then none
       else some [{ op := "replace", path := "/metadata/annotations"
                    value := setAnnotations anno (desiredSnippets compile anno) }]) := by
  simp only [NginxIngressReview, desiredSnippets]

/-- C1: Idempotence of admission review — for every Ingress whose current
annotations already equal the compiled desired state (each of the four
agent-managed nginx annotation keys, a missing key comparing equal to `""`),
`NginxIngress.Review` returns a nil patch: reviewing an object with its policy
already correctly applied never emits a patch. -/
theorem nginx_review_idempotent (compile : String → nginxSnippets) (anno : AnnoMap)
    (h1 : getA anno authURLKey = (desiredSnippets compile anno).AuthURL)
    (h2 : getA anno configSnippetKey = (desiredSnippets compile anno).ConfigurationSnippet)
    (h3 : getA anno serverSnippetsKey = (desiredSnippets compile anno).ServerSnippets)
    (h4 : getA anno locationSnippetsKey = (desiredSnippets compile anno).LocationSnippets) :
    NginxIngressReview compile anno = none := by
  rw [NginxIngressReview_eq]
  have : noPatchRequired anno (desiredSnippets compile anno) = true :=
    (noPatchRequired_iff _ _).mpr ⟨h1, h2, h3, h4⟩
  simp [this]

theorem nginx_review_idempotent_witness :
    (getA [(AnnotationNeoAuth, "pol"), (authURLKey, "http://agent/auth"),
        (configSnippetKey, "snip")] authURLKey =
      (desiredSnippets (fun _ => ⟨"http://agent/auth", "snip", "", ""⟩)
        [(AnnotationNeoAuth, "pol"), (authURLKey, "http://agent/auth"),
          (configSnippetKey, "snip")]).AuthURL) ∧
    NginxIngressReview (fun _ => ⟨"http://agent/auth", "snip", "", ""⟩)
      [(AnnotationNeoAuth, "pol"), (authURLKey, "http://agent/auth"),
        (configSnippetKey, "snip")] = none :=
  ⟨by decide, nginx_review_idempotent _ _ (by decide) (by decide) (by decide) (by decide)⟩

/-- C6: Empty-category omission — in the desired annotation state built by
`setAnnotations`, any of the four managed annotation values that is empty is
deleted from the map entirely (never left present as an empty string), and any
non-empty one is present with its compiled value. -/
theorem setAnnotations_empty_omitted (anno : AnnoMap) (s : nginxSnippets)
    (k : String) (hk : k ∈ managedKeys) :
    lookupA (setAnnotations anno s) k =
      (if snippetOf s k = "" then none else some (snippetOf s k)) := by
  have hac : ¬ authURLKey = configSnippetKey := by decide
  have has : ¬ authURLKey = serverSnippetsKey := by decide
  have hal : ¬ authURLKey = locationSnippetsKey := by decide
  have hcs : ¬ configSnippetKey = serverSnippetsKey := by decide
  have hcl : ¬ configSnippetKey = locationSnippetsKey := by decide
  have hsl : ¬ serverSnippetsKey = locationSnippetsKey := by decide
  have hca : ¬ configSnippetKey = authURLKey := by decide
  have hsa : ¬ serverSnippetsKey = authURLKey := by decide
  have hla : ¬ locationSnippetsKey = authURLKey := by decide
  have hsc : ¬ serverSnippetsKey = configSnippetKey := by decide
  have hlc : ¬ locationSnippetsKey = configSnippetKey := by decide
  have hls : ¬ locationSnippetsKey = serverSnippetsKey := by decide
  simp only [managedKeys, List.mem_cons, List.mem_singleton, List.not_mem_nil,
    or_false] at hk
  rcases hk with h | h | h | h <;> subst h <;>
    simp [lookupA_setAnnotations, snippetOf, hac, has, hal, hcs, hcl, hsl,
      hca, hsa, hla, hsc, hlc, hls]

theorem setAnnotations_empty_omitted_witness :
    (serverSnippetsKey ∈ managedKeys) ∧
    lookupA (setAnnotations [("example.com/keep", "v")]
        ⟨"http://agent/auth", "", "", ""⟩) serverSnippetsKey =
      (if snippetOf ⟨"http://agent/auth", "", "", ""⟩ serverSnippetsKey = ""
       then none
       else some (snippetOf ⟨"http://agent/auth", "", "", ""⟩ serverSnippetsKey)) :=
  ⟨by decide, setAnnotations_empty_omitted _ _ _ (by decide)⟩

/-- C7: Removal on policy clearing — when the ACP annotation is absent or
empty, the compiled desired state contains none of the agent-managed
constructs: any patch emitted by `NginxIngress.Review` removes all four
agent-managed nginx annotation keys, and no patch at all is emitted exactly
when the four keys are already absent-or-empty on the object. -/
theorem nginx_review_clearing (compile : String → nginxSnippets) (anno : AnnoMap)
    (hpol : getA anno AnnotationNeoAuth = "") :
    (∀ ops, NginxIngressReview compile anno = some ops →
      ∃ patched, ops = [{ op := "replace", path := "/metadata/annotations"
                          value := patched }] ∧
        ∀ k, k ∈ managedKeys → lookupA patched k = none) ∧
    (NginxIngressReview compile anno = none ↔
      ∀ k, k ∈ managedKeys → getA anno k = "") := by
  have hdes : desiredSnippets compile anno = emptySnippets := by
    simp [desiredSnippets, hpol]
  constructor
  · intro ops hops
    rw [NginxIngressReview_eq, hdes] at hops
    by_cases hnp : noPatchRequired anno emptySnippets
    · simp [hnp] at hops
    · simp only [hnp, if_neg, Bool.false_eq_true, if_false, Option.some_inj] at hops
      refine ⟨setAnnotations anno emptySnippets, hops.symm, ?_⟩
      intro k hk
      rw [setAnnotations_empty_omitted anno emptySnippets k hk]
      simp only [managedKeys, List.mem_cons, List.mem_singleton,
        List.not_mem_nil, or_false] at hk
      rcases hk with h | h | h | h <;> subst h <;>
        simp [snippetOf, emptySnippets, ite_self]
  · rw [NginxIngressReview_eq, hdes]
    constructor
    · intro hnone k hk
      by_cases hnp : noPatchRequired anno emptySnippets
      · have := (noPatchRequired_iff anno emptySnippets).mp hnp
        simp only [managedKeys, List.mem_cons, List.mem_singleton,
          List.not_mem_nil, or_false] at hk
        rcases hk with h | h | h | h <;> subst h <;>
          simp [emptySnippets] at this ⊢ <;> tauto
      · simp [hnp] at hnone
    · intro hall
      have ha := hall authURLKey (by decide)
      have hc := hall configSnippetKey (by decide)
      have hs := hall serverSnippetsKey (by decide)
      have hl := hall locationSnippetsKey (by decide)
      have hnp : noPatchRequired anno emptySnippets = true := by
        refine (noPatchRequired_iff _ _).mpr ⟨?_, ?_, ?_, ?_⟩ <;>
          simp [emptySnippets, ha, hc, hs, hl]
      simp [hnp]

theorem nginx_review_clearing_witness :
    (getA [(authURLKey, "http://old"), ("example.com/keep", "v")]
        AnnotationNeoAuth = "") ∧
    ((∀ ops, NginxIngressReview (fun _ => emptySnippets)
        [(authURLKey, "http://old"), ("example.com/keep", "v")] = some ops →
      ∃ patched, ops = [{ op := "replace", path := "/metadata/annotations"
                          value := patched }] ∧
        ∀ k, k ∈ managedKeys → lookupA patched k = none) ∧
    (NginxIngressReview (fun _ => emptySnippets)
        [(authURLKey, "http://old"), ("example.com/keep", "v")] = none ↔
      ∀ k, k ∈ managedKeys →
        getA [(authURLKey, "http://old"), ("example.com/keep", "v")] k = "")) :=
  ⟨by decide, nginx_review_clearing _ _ (by decide)⟩

/-- C8: Frame condition on user-authored annotations — whenever
`NginxIngress.Review` emits a patch, the patched annotation map agrees with
the object's original annotations on every key other than the four
agent-managed nginx annotation keys. -/
theorem nginx_review_frame (compile : String → nginxSnippets) (anno : AnnoMap)
    (ops : List PatchOp) (hops : NginxIngressReview compile anno = some ops) :
    ∃ patched, ops = [{ op := "replace", path := "/metadata/annotations"
                        value := patched }] ∧
      ∀ q, ¬ q ∈ managedKeys → lookupA patched q = lookupA anno q := by
  rw [NginxIngressReview_eq] at hops
  by_cases hnp : noPatchRequired anno (desiredSnippets compile anno)
  · simp [hnp] at hops
  · simp only [hnp, Bool.false_eq_true, if_false, Option.some_inj] at hops
    refine ⟨setAnnotations anno (desiredSnippets compile anno), hops.symm, ?_⟩
    intro q hq
    simp only [managedKeys, List.mem_cons, List.mem_singleton,
      List.not_mem_nil, or_false, not_or] at hq
    obtain ⟨n1, n2, n3, n4⟩ := hq
    simp [lookupA_setAnnotations, n1, n2, n3, n4]

theorem nginx_review_frame_witness :
    NginxIngressReview (fun _ => nginxSnippets.mk "http://agent/auth" "" "" "")
        [(AnnotationNeoAuth, "pol"), ("example.com/keep", "v")] =
      some [{ op := "replace", path := "/metadata/annotations"
              value := [(AnnotationNeoAuth, "pol"), ("example.com/keep", "v"),
                        (authURLKey, "http://agent/auth")] }] ∧
    ∃ patched,
      [({ op := "replace", path := "/metadata/annotations"
          value := [(AnnotationNeoAuth, "pol"), ("example.com/keep", "v"),
                    (authURLKey, "http://agent/auth")] } : PatchOp)] =
        [{ op := "replace", path := "/metadata/annotations", value := patched }] ∧
      ∀ q, ¬ q ∈ managedKeys →
        lookupA patched q =
          lookupA [(AnnotationNeoAuth, "pol"), ("example.com/keep", "v")] q :=
  ⟨by decide,
    nginx_review_frame (fun _ => nginxSnippets.mk "http://agent/auth" "" "" "")
      [(AnnotationNeoAuth, "pol"), ("example.com/keep", "v")]
      [{ op := "replace", path := "/metadata/annotations"
         value := [(AnnotationNeoAuth, "pol"), ("example.com/keep", "v"),
                   (authURLKey, "http://agent/auth")] }]
      (by decide)⟩

/-! ## Ingress-class applicability (`NginxIngress.CanReview`) -/

/-- Modelled from the spec: the `ingclass.ControllerTypeNginxOfficial` constant
is declared outside src/; the spec names the flavor tags ("nginx-official",
"nginx-community", "traefik") and only distinctness matters below. -/
def ControllerTypeNginxOfficial : String := "nginx-official"

/-- Modelled from the spec: the `ingclass.ControllerTypeNginxCommunity`
constant is declared outside src/. -/
def ControllerTypeNginxCommunity : String := "nginx-community"

/-- Source `isNginx`: whether a controller-flavor tag is one of the two Nginx flavors. -/
def isNginx (ctrlr : String) : Bool :=
  ctrlr == ControllerTypeNginxOfficial || ctrlr == ControllerTypeNginxCommunity

/-- Modelled from the spec: the `defaultAnnotationNginx` literal is declared
outside src/ - "a legacy free-text class annotation, with a special-cased
literal value treated as the well-known default Nginx flavor independent of
registry contents". Its exact spelling is irrelevant to the theorems. -/
def defaultAnnotationNginx : String := "nginx"

/-- The `IngressClasses` collaborator: class-name to flavor-tag registry
(`GetController`, returning `""` for an unknown class) plus the configured
default controller (`GetDefaultController`, which can fail). -/
structure IngressClasses where
  controllers : AnnoMap
  defaultController : Except String String

/-- Source `GetController`: registry lookup, the zero value for an unknown class. -/
def GetController (r : IngressClasses) (name : String) : String :=
  getA r.controllers name

/-- Source `NginxIngress.CanReview` (lines 206-235) after the resource-kind
gate and `parseIngressClass` (declared outside src/): the reviewed object's
`spec.ingressClassName` field and legacy class annotation arrive pre-parsed
as `ingClassName` and `ingClassAnno`. -/
def CanReview (r : IngressClasses) (ingClassName ingClassAnno : String) :
    Except String Bool :=
  match r.defaultController with
  | .error e => .error ("get default controller: " ++ e)
  | .ok defaultCtrlr =>
    if ingClassName ≠ "" then .ok (isNginx (GetController r ingClassName))
    else if ingClassAnno ≠ "" then
      if ingClassAnno = defaultAnnotationNginx then .ok true
      else .ok (isNginx (GetController r ingClassAnno))
    else .ok (isNginx defaultCtrlr)

/-- C5: Nginx ingress-class applicability precedence — with the registry's
default controller available, `CanReview` decides by (1) the explicit
`ingressClassName` looked up in the registry, else (2) the legacy class
annotation (the special-cased literal treated as nginx independent of
registry contents, any other value looked up in the registry), else (3) the
configured default controller; unknown or non-nginx flavors yield `.ok false`,
never an error. -/
theorem CanReview_precedence (r : IngressClasses) (d : String)
    (hd : r.defaultController = .ok d) (ingClassName ingClassAnno : String) :
    CanReview r ingClassName ingClassAnno =
      .ok (if ingClassName ≠ "" then isNginx (GetController r ingClassName)
           else if ingClassAnno ≠ "" then
             (if ingClassAnno = defaultAnnotationNginx then true
              else isNginx (GetController r ingClassAnno))
           else isNginx d) ∧
    (ingClassName ≠ "" → isNginx (GetController r ingClassName) = false →
      CanReview r ingClassName ingClassAnno = .ok false) := by
  constructor
  · simp only [CanReview, hd]
    by_cases h1 : ingClassName ≠ "" <;> by_cases h2 : ingClassAnno ≠ "" <;>
      simp [h1, h2] <;> split <;> simp_all
  · intro hne hflav
    simp [CanReview, hd, hne, hflav]

theorem CanReview_precedence_witness :
    ((⟨[("my-class", ControllerTypeNginxCommunity)],
        .ok ControllerTypeNginxOfficial⟩ : IngressClasses).defaultController =
      .ok ControllerTypeNginxOfficial) ∧
    (CanReview ⟨[("my-class", ControllerTypeNginxCommunity)],
        .ok ControllerTypeNginxOfficial⟩ "unknown-class" "" =
      .ok (if ("unknown-class" : String) ≠ "" then
            isNginx (GetController ⟨[("my-class", ControllerTypeNginxCommunity)],
              .ok ControllerTypeNginxOfficial⟩ "unknown-class")
          else if ("" : String) ≠ "" then
            (if ("" : String) = defaultAnnotationNginx then true
             else isNginx (GetController ⟨[("my-class", ControllerTypeNginxCommunity)],
               .ok ControllerTypeNginxOfficial⟩ ""))
          else isNginx ControllerTypeNginxOfficial) ∧
    (("unknown-class" : String) ≠ "" →
      isNginx (GetController ⟨[("my-class", ControllerTypeNginxCommunity)],
        .ok ControllerTypeNginxOfficial⟩ "unknown-class") = false →
      CanReview ⟨[("my-class", ControllerTypeNginxCommunity)],
        .ok ControllerTypeNginxOfficial⟩ "unknown-class" "" = .ok false)) :=
  ⟨rfl, CanReview_precedence _ ControllerTypeNginxOfficial rfl "unknown-class" ""⟩

/-! ## API-key ACP handler (`apikey` package)

`Config`, `Key`, `NewHandler`, `getAPIkey`, `originalURI` and `ServeHTTP`
from `pkg/acp/apikey/api_key.go`. External code is abstracted as parameters:
`parseURI` stands for `net/url.Parse` composed with `.Query()` (Go standard
library), `shakeHex` for the hex-encoded 64-byte `sha3.ShakeSum256`
(golang.org/x/crypto), and `pluck` for `expr.PluckClaims`. Modelled from the
spec: `expr.PluckClaims` (pkg/acp/expr) is not under src/; the spec says only
that deriving forwarded headers from the matched key's metadata may fail
("a failure while deriving forwarded headers is a hard internal error, not an
authentication failure"), so it is an arbitrary possibly-failing function. -/

/-- A configured API key (`Key`). -/
structure Key where
  ID : String
  Metadata : List (String × String)
  Value : String
  deriving DecidableEq

/-- Configuration of the API-key handler (`Config`). `ForwardHeaders` is a nil-able Go map. -/
structure Config where
  Header : String
  Query : String
  Cookie : String
  Keys : List Key
  ForwardHeaders : Option (List (String × String))
  deriving DecidableEq

/-- The internal per-key record (`key`): ID plus stored metadata. -/
structure key where
  ID : String
  Metadata : List (String × String)
  deriving DecidableEq

/-- The API-key handler (`Handler`). -/
structure Handler where
  name : String
  header : String
  query : String
  cookie : String
  keys : List (String × key)
  fwdHeaders : Option (List (String × String))
  deriving DecidableEq

/-- The stored record for one config entry: metadata copied, then the key ID
written under the reserved `"_id"` field. -/
def buildKey (k : Key) : key :=
  { ID := k.ID, Metadata := insertA k.Metadata "_id" k.ID }

/-- The key-table loop of `NewHandler` (source lines 68-88): per entry, reject
empty ID or value, reject an already-seen ID, then index the record by the
secret value (overwriting any earlier entry with the same value). -/
def addKeys : List Key → List String → List (String × key) →
    Except String (List (String × key))
  | [], _, acc => .ok acc
  | k :: rest, uniqIDs, acc =>
    if k.ID = "" ∨ k.Value = "" then .error "empty ID or value"
    else if k.ID ∈ uniqIDs then .error ("duplicated ID " ++ k.ID)
    else addKeys rest (k.ID :: uniqIDs) (insertA acc k.Value (buildKey k))

/-- Source `NewHandler` (lines 63-98). -/
def NewHandler (cfg : Config) (name : String) : Except String Handler :=
  if cfg.Header = "" ∧ cfg.Query = "" ∧ cfg.Cookie = "" then
    .error "at least one of header, query or cookie is required"
  else
    match addKeys cfg.Keys [] [] with
    | .error e => .error e
    | .ok keys =>
      .ok { name := name, header := cfg.Header, query := cfg.Query
            cookie := cfg.Cookie, keys := keys
            fwdHeaders := cfg.ForwardHeaders }

/-- An HTTP request as the handler observes it: headers (keys already in
canonical MIME form, `Get` = first value or `""`) and cookies. -/
structure Request where
  headers : List (String × String)
  cookies : List (String × String)

/-- Source `originalURI`: `X-Forwarded-Uri` (Traefik), falling back to
`X-Original-Url` (Nginx Community). -/
def originalURI (hdr : List (String × String)) : String :=
  if getA hdr "X-Forwarded-Uri" ≠ "" then getA hdr "X-Forwarded-Uri"
  else getA hdr "X-Original-Url"

/-- The cookie block of `getAPIkey`: `req.Cookie(h.cookie)` yields the first
cookie with that name; a missing cookie or an empty value falls through to
the missing-API-key error. -/
def cookieAPIKey (h : Handler) (req : Request) : Option String :=
  if h.cookie ≠ "" then
    match lookupA req.cookies h.cookie with
    | some v => if v ≠ "" then some v else none
    | none => none
  else none

/-- Source `getAPIkey` (lines 137-164): header, then query parameter of the
upstream original URI, then cookie; `none` is the error return (including a
URI parse error, which returns immediately without trying the cookie). -/
def getAPIkey (parseURI : String → Option (List (String × String)))
    (h : Handler) (req : Request) : Option String :=
  if h.header ≠ "" ∧ getA req.headers h.header ≠ "" then
    some (getA req.headers h.header)
  else if h.query ≠ "" ∧ originalURI req.headers ≠ "" then
    match parseURI (originalURI req.headers) with
    | none => none
    | some qs =>
      if getA qs h.query ≠ "" then some (getA qs h.query)
      else cookieAPIKey h req
  else cookieAPIKey h req

/-- Source `ServeHTTP` (lines 100-134), returning the response status code:
401 when no API key is found or its hash misses the key table; with a match,
200 — except that configured forward headers whose derivation fails yield
500. -/
def ServeHTTP (parseURI : String → Option (List (String × String)))
    (shakeHex : String → String)
    (pluck : List (String × String) → List (String × String) →
      Except String (List (String × String)))
    (h : Handler) (req : Request) : Nat :=
  match getAPIkey parseURI h req with
  | none => 401
  | some apiKey =>
    match lookupA h.keys (shakeHex apiKey) with
    | none => 401
    | some k =>
      match h.fwdHeaders with
      | none => 200
      | some fh =>
        match pluck fh k.Metadata with
        | .error _ => 500
        | .ok _ => 200

theorem findAppend {α : Type} (l₁ l₂ : List α) (p : α → Bool) :
    (l₁ ++ l₂).find? p =
      match l₁.find? p with
      | some a => some a
      | none => l₂.find? p := by
  induction l₁ with
  | nil => simp
  | cons a l ih => by_cases h : p a <;> simp [List.find?_cons, h, ih]

theorem addKeys_ok_iff (ks : List Key) (uniq : List String)
    (acc : List (String × key)) :
    (∃ m, addKeys ks uniq acc = .ok m) ↔
      (∀ k ∈ ks, k.ID ≠ "" ∧ k.Value ≠ "") ∧ (ks.map Key.ID).Nodup ∧
        ∀ k ∈ ks, k.ID ∉ uniq := by
  induction ks generalizing uniq acc with
  | nil => simp [addKeys]
  | cons k rest ih =>
    by_cases he : k.ID = "" ∨ k.Value = ""
    · constructor
      · rintro ⟨m, hm⟩
        unfold addKeys at hm
        rw [if_pos he] at hm
        cases hm
      · rintro ⟨hvalid, -⟩
        have := hvalid k (List.mem_cons_self k rest)
        tauto
    · by_cases hdup : k.ID ∈ uniq
      · constructor
        · rintro ⟨m, hm⟩
          unfold addKeys at hm
          rw [if_neg he, if_pos hdup] at hm
          cases hm
        · rintro ⟨-, -, hnotin⟩
          exact absurd hdup (hnotin k (List.mem_cons_self k rest))
      · have hstep : addKeys (k :: rest) uniq acc =
            addKeys rest (k.ID :: uniq) (insertA acc k.Value (buildKey k)) := by
          simp only [addKeys]
          rw [if_neg he, if_neg hdup]
        constructor
        · rintro ⟨m, hm⟩
          rw [hstep] at hm
          obtain ⟨hvalid, hnodup, hnotin⟩ :=
            (ih (k.ID :: uniq) (insertA acc k.Value (buildKey k))).mp ⟨m, hm⟩
          push_neg at he
          refine ⟨?_, ?_, ?_⟩
          · intro a ha
            rcases List.mem_cons.mp ha with rfl | ha'
            · exact he
            · exact hvalid a ha'
          · simp only [List.map_cons, List.nodup_cons]
            refine ⟨?_, hnodup⟩
            simp only [List.mem_map, not_exists]
            rintro a ⟨ha, haid⟩
            exact (hnotin a ha) (by simp [haid])
          · intro a ha
            rcases List.mem_cons.mp ha with rfl | ha'
            · exact hdup
            · intro hmem
              exact (hnotin a ha') (List.mem_cons_of_mem _ hmem)
        · rintro ⟨hvalid, hnodup, hnotin⟩
          have hrest : ∀ a ∈ rest, a.ID ≠ "" ∧ a.Value ≠ "" :=
            fun a ha => hvalid a (List.mem_cons_of_mem _ ha)
          simp only [List.map_cons, List.nodup_cons, List.mem_map,
            not_exists] at hnodup
          obtain ⟨hkid, hnodup'⟩ := hnodup
          have hnotin' : ∀ a ∈ rest, a.ID ∉ k.ID :: uniq := by
            intro a ha
            simp only [List.mem_cons]
            rintro (h | h)
            · exact hkid a ⟨ha, h⟩
            · exact (hnotin a (List.mem_cons_of_mem _ ha)) h
          obtain ⟨m, hm⟩ :=
            (ih (k.ID :: uniq) (insertA acc k.Value (buildKey k))).mpr
              ⟨hrest, hnodup', hnotin'⟩
          exact ⟨m, by rw [hstep]; exact hm⟩

/-- C4: API-key handler construction validation — `NewHandler` returns a
handler (and no error) exactly when some lookup location (header, query or
cookie) is configured, every key entry has a non-empty ID and a non-empty
secret value, and no two entries share an ID; in every other case it returns
an error and no handler. -/
theorem NewHandler_ok_iff (cfg : Config) (name : String) :
    (∃ h, NewHandler cfg name = .ok h) ↔
      ¬(cfg.Header = "" ∧ cfg.Query = "" ∧ cfg.Cookie = "") ∧
      (∀ k ∈ cfg.Keys, k.ID ≠ "" ∧ k.Value ≠ "") ∧
      (cfg.Keys.map Key.ID).Nodup := by
  by_cases hl : cfg.Header = "" ∧ cfg.Query = "" ∧ cfg.Cookie = ""
  · constructor
    · rintro ⟨h, hh⟩
      unfold NewHandler at hh
      rw [if_pos hl] at hh
      cases hh
    · rintro ⟨hno, -⟩
      exact absurd hl hno
  · constructor
    · rintro ⟨h, hh⟩
      unfold NewHandler at hh
      rw [if_neg hl] at hh
      cases hak : addKeys cfg.Keys [] [] with
      | error e => rw [hak] at hh; cases hh
      | ok m =>
        have := (addKeys_ok_iff cfg.Keys [] []).mp ⟨m, hak⟩
        exact ⟨hl, this.1, this.2.1⟩
    · rintro ⟨-, hvalid, hnodup⟩
      obtain ⟨m, hm⟩ :=
        (addKeys_ok_iff cfg.Keys [] []).mpr ⟨hvalid, hnodup, by simp⟩
      refine ⟨{ name := name, header := cfg.Header, query := cfg.Query
                cookie := cfg.Cookie, keys := m
                fwdHeaders := cfg.ForwardHeaders }, ?_⟩
      unfold NewHandler
      rw [if_neg hl, hm]

/-- Inversion of a successful `NewHandler`. -/
theorem NewHandler_ok_inv (cfg : Config) (name : String) (h : Handler)
    (hh : NewHandler cfg name = .ok h) :
    addKeys cfg.Keys [] [] = .ok h.keys ∧
      h.header = cfg.Header ∧ h.query = cfg.Query ∧ h.cookie = cfg.Cookie ∧
      h.fwdHeaders = cfg.ForwardHeaders := by
  unfold NewHandler at hh
  split at hh
  · cases hh
  · cases hak : addKeys cfg.Keys [] [] with
    | error e => rw [hak] at hh; cases hh
    | ok m =>
      rw [hak] at hh
      cases hh
      exact ⟨rfl, rfl, rfl, rfl, rfl⟩

theorem addKeys_lookup (ks : List Key) (uniq : List String)
    (acc : List (String × key)) (m : List (String × key))
    (hm : addKeys ks uniq acc = .ok m) (v : String) :
    lookupA m v =
      match ks.reverse.find? (fun k => k.Value == v) with
      | some k => some (buildKey k)
      | none => lookupA acc v := by
  induction ks generalizing uniq acc with
  | nil =>
    cases hm
    simp
  | cons k rest ih =>
    simp only [addKeys] at hm
    split at hm
    · cases hm
    · split at hm
      · cases hm
      · have hrec := ih _ _ hm
        rw [hrec]
        have happ := findAppend rest.reverse [k] (fun k => k.Value == v)
        simp only [List.reverse_cons, happ]
        cases hfind : rest.reverse.find? (fun k => k.Value == v) with
        | some k' => simp
        | none =>
          simp only [List.find?_cons, List.find?_nil]
          by_cases hv : k.Value == v
          · have hv' : v = k.Value := by
              have := eq_of_beq hv; exact this.symm
            simp [hv, lookupA_insertA, hv']
          · have hv' : ¬ v = k.Value := by
              intro hvv
              exact hv (by simp [hvv])
            simp [hv, lookupA_insertA, hv']

/-- C9: Reserved metadata invariant — in every handler built by `NewHandler`,
every stored key record maps the reserved `"_id"` metadata field to that
record's ID; and for every configured entry the stored metadata is the user
metadata with `"_id"` overwritten by the entry's ID, so a user-supplied
`"_id"` entry is never observable. -/
theorem handler_metadata_id (cfg : Config) (name : String) (h : Handler)
    (hh : NewHandler cfg name = .ok h) :
    (∀ v k, lookupA h.keys v = some k →
      lookupA k.Metadata "_id" = some k.ID) ∧
    (∀ e : Key, lookupA (buildKey e).Metadata "_id" = some e.ID ∧
      ∀ q, q ≠ "_id" →
        lookupA (buildKey e).Metadata q = lookupA e.Metadata q) := by
  have hak := (NewHandler_ok_inv cfg name h hh).1
  constructor
  · intro v k hk
    rw [addKeys_lookup cfg.Keys [] [] h.keys hak v] at hk
    cases hfind : cfg.Keys.reverse.find? (fun kk => kk.Value == v) with
    | some e =>
      rw [hfind] at hk
      cases hk
      simp [buildKey, lookupA_insertA]
    | none =>
      rw [hfind] at hk
      cases hk
  · intro e
    constructor
    · simp [buildKey, lookupA_insertA]
    · intro q hq
      simp [buildKey, lookupA_insertA, hq]

theorem handler_metadata_id_witness :
    (NewHandler ⟨"Auth", "", "", [⟨"id1", [("_id", "evil"), ("grp", "a")], "sec"⟩],
        none⟩ "n" =
      .ok ⟨"n", "Auth", "", "",
        [("sec", ⟨"id1", [("_id", "id1"), ("grp", "a")]⟩)], none⟩) ∧
    ((∀ v k, lookupA (⟨"n", "Auth", "", "",
        [("sec", ⟨"id1", [("_id", "id1"), ("grp", "a")]⟩)], none⟩ : Handler).keys
          v = some k →
      lookupA k.Metadata "_id" = some k.ID) ∧
    (∀ e : Key, lookupA (buildKey e).Metadata "_id" = some e.ID ∧
      ∀ q, q ≠ "_id" →
        lookupA (buildKey e).Metadata q = lookupA e.Metadata q)) :=
  ⟨rfl,
    handler_metadata_id
      ⟨"Auth", "", "", [⟨"id1", [("_id", "evil"), ("grp", "a")], "sec"⟩], none⟩
      "n"
      ⟨"n", "Auth", "", "", [("sec", ⟨"id1", [("_id", "id1"), ("grp", "a")]⟩)],
        none⟩
      rfl⟩

/-- C10: Duplicate secret values accepted, last entry wins — `NewHandler`
succeeds whenever some lookup location is configured, all entries are
non-empty and IDs are pairwise distinct (values are never checked for
uniqueness), and in the built handler the value-indexed key table maps each
secret value to the record (ID and metadata) of the last configured entry
carrying that value. -/
theorem NewHandler_last_value_wins (cfg : Config) (name : String)
    (hloc : ¬(cfg.Header = "" ∧ cfg.Query = "" ∧ cfg.Cookie = ""))
    (hvalid : ∀ k ∈ cfg.Keys, k.ID ≠ "" ∧ k.Value ≠ "")
    (hids : (cfg.Keys.map Key.ID).Nodup) :
    ∃ h, NewHandler cfg name = .ok h ∧
      ∀ v, lookupA h.keys v =
        (cfg.Keys.reverse.find? (fun k => k.Value == v)).map buildKey := by
  obtain ⟨h, hh⟩ := (NewHandler_ok_iff cfg name).mpr ⟨hloc, hvalid, hids⟩
  refine ⟨h, hh, ?_⟩
  intro v
  have hak := (NewHandler_ok_inv cfg name h hh).1
  rw [addKeys_lookup cfg.Keys [] [] h.keys hak v]
  cases hfind : cfg.Keys.reverse.find? (fun k => k.Value == v) <;>
    simp [lookupA]

theorem NewHandler_last_value_wins_witness :
    ¬((("Auth" : String) = "" ∧ ("" : String) = "" ∧ ("" : String) = "")) ∧
    (∀ k ∈ (⟨"Auth", "", "",
        [⟨"id1", [("grp", "a")], "sec"⟩, ⟨"id2", [("grp", "b")], "sec"⟩],
        none⟩ : Config).Keys, k.ID ≠ "" ∧ k.Value ≠ "") ∧
    ((⟨"Auth", "", "",
        [⟨"id1", [("grp", "a")], "sec"⟩, ⟨"id2", [("grp", "b")], "sec"⟩],
        none⟩ : Config).Keys.map Key.ID).Nodup ∧
    (∃ h, NewHandler ⟨"Auth", "", "",
        [⟨"id1", [("grp", "a")], "sec"⟩, ⟨"id2", [("grp", "b")], "sec"⟩],
        none⟩ "n" = .ok h ∧
      ∀ v, lookupA h.keys v =
        ((⟨"Auth", "", "",
          [⟨"id1", [("grp", "a")], "sec"⟩, ⟨"id2", [("grp", "b")], "sec"⟩],
          none⟩ : Config).Keys.reverse.find?
            (fun k => k.Value == v)).map buildKey) :=
  ⟨by decide, by decide, by decide,
    NewHandler_last_value_wins
      ⟨"Auth", "", "",
        [⟨"id1", [("grp", "a")], "sec"⟩, ⟨"id2", [("grp", "b")], "sec"⟩], none⟩
      "n" (by decide) (by decide) (by decide)⟩

/-- C3 (amended): API-key serving decision — the candidate secret is selected
in strict priority order (configured header if non-empty; else the configured
query parameter of the upstream original URI if non-empty; else the
configured cookie if non-empty, with no fallback past the first location
yielding a value); the request is answered 401 when no candidate is found or
its hash misses the key table, and 200 on a table hit — provided that, when
forward headers are configured, deriving them from the matched key's metadata
succeeds; a derivation failure yields 500. -/
theorem ServeHTTP_decision (parseURI : String → Option (List (String × String)))
    (shakeHex : String → String)
    (pluck : List (String × String) → List (String × String) →
      Except String (List (String × String)))
    (h : Handler) (req : Request) :
    (h.header ≠ "" → getA req.headers h.header ≠ "" →
      getAPIkey parseURI h req = some (getA req.headers h.header)) ∧
    (∀ qs, (h.header = "" ∨ getA req.headers h.header = "") → h.query ≠ "" →
      originalURI req.headers ≠ "" →
      parseURI (originalURI req.headers) = some qs → getA qs h.query ≠ "" →
      getAPIkey parseURI h req = some (getA qs h.query)) ∧
    (∀ v, (h.header = "" ∨ getA req.headers h.header = "") →
      (h.query = "" ∨ originalURI req.headers = "" ∨
        (∃ qs, parseURI (originalURI req.headers) = some qs ∧
          getA qs h.query = "")) →
      h.cookie ≠ "" → lookupA req.cookies h.cookie = some v → v ≠ "" →
      getAPIkey parseURI h req = some v) ∧
    (getAPIkey parseURI h req = none →
      ServeHTTP parseURI shakeHex pluck h req = 401) ∧
    (∀ c, getAPIkey parseURI h req = some c →
      lookupA h.keys (shakeHex c) = none →
      ServeHTTP parseURI shakeHex pluck h req = 401) ∧
    (∀ c k, getAPIkey parseURI h req = some c →
      lookupA h.keys (shakeHex c) = some k → h.fwdHeaders = none →
      ServeHTTP parseURI shakeHex pluck h req = 200) ∧
    (∀ c k fh r, getAPIkey parseURI h req = some c →
      lookupA h.keys (shakeHex c) = some k → h.fwdHeaders = some fh →
      pluck fh k.Metadata = .ok r →
      ServeHTTP parseURI shakeHex pluck h req = 200) ∧
    (∀ c k fh e, getAPIkey parseURI h req = some c →
      lookupA h.keys (shakeHex c) = some k → h.fwdHeaders = some fh →
      pluck fh k.Metadata = .error e →
      ServeHTTP parseURI shakeHex pluck h req = 500) := by
  refine ⟨?_, ?_, ?_, ?_, ?_, ?_, ?_, ?_⟩
  · intro hh hv
    simp [getAPIkey, hh, hv]
  · intro qs hno hq huri hparse hval
    have hcond : ¬(h.header ≠ "" ∧ getA req.headers h.header ≠ "") := by tauto
    simp only [getAPIkey]
    rw [if_neg hcond, if_pos ⟨hq, huri⟩, hparse]
    simp [hval]
  · intro v hno hqno hc hcookie hv
    have hcond : ¬(h.header ≠ "" ∧ getA req.headers h.header ≠ "") := by tauto
    have hck : cookieAPIKey h req = some v := by
      simp only [cookieAPIKey]
      rw [if_pos hc, hcookie]
      simp [hv]
    rcases hqno with hq | huri | ⟨qs, hparse, hqs⟩
    · have hcond2 : ¬(h.query ≠ "" ∧ originalURI req.headers ≠ "") := by tauto
      simp only [getAPIkey]
      rw [if_neg hcond, if_neg hcond2]
      exact hck
    · have hcond2 : ¬(h.query ≠ "" ∧ originalURI req.headers ≠ "") := by tauto
      simp only [getAPIkey]
      rw [if_neg hcond, if_neg hcond2]
      exact hck
    · by_cases hcond2 : h.query ≠ "" ∧ originalURI req.headers ≠ ""
      · simp only [getAPIkey]
        rw [if_neg hcond, if_pos hcond2, hparse]
        simp only [Option.some.injEq]
        rw [if_neg (by simp [hqs])]
        exact hck
      · simp only [getAPIkey]
        rw [if_neg hcond, if_neg hcond2]
        exact hck
  · intro hkey
    simp [ServeHTTP, hkey]
  · intro c hkey hmiss
    simp [ServeHTTP, hkey, hmiss]
  · intro c k hkey hhit hfwd
    simp [ServeHTTP, hkey, hhit, hfwd]
  · intro c k fh r hkey hhit hfwd hok
    simp [ServeHTTP, hkey, hhit, hfwd, hok]
  · intro c k fh e hkey hhit hfwd herr
    simp [ServeHTTP, hkey, hhit, hfwd, herr]

theorem ServeHTTP_decision_witness :
    (("Auth" : String) ≠ "" ∧
      getA [("Auth", "secret")] "Auth" ≠ "" ∧
      getAPIkey (fun _ => none)
        ⟨"n", "Auth", "", "", [("HASH", ⟨"id1", [("_id", "id1")]⟩)], none⟩
        ⟨[("Auth", "secret")], []⟩ = some (getA [("Auth", "secret")] "Auth")) ∧
    ServeHTTP (fun _ => none) (fun _ => "HASH") (fun _ _ => .ok [])
      ⟨"n", "Auth", "", "", [("HASH", ⟨"id1", [("_id", "id1")]⟩)], none⟩
      ⟨[("Auth", "secret")], []⟩ = 200 :=
  ⟨⟨by decide, by decide,
    (ServeHTTP_decision (fun _ => none) (fun _ => "HASH") (fun _ _ => .ok [])
      ⟨"n", "Auth", "", "", [("HASH", ⟨"id1", [("_id", "id1")]⟩)], none⟩
      ⟨[("Auth", "secret")], []⟩).1 (by decide) (by decide)⟩,
    (ServeHTTP_decision (fun _ => none) (fun _ => "HASH") (fun _ _ => .ok [])
      ⟨"n", "Auth", "", "", [("HASH", ⟨"id1", [("_id", "id1")]⟩)], none⟩
      ⟨[("Auth", "secret")], []⟩).2.2.2.2.2.1 "secret"
      ⟨"id1", [("_id", "id1")]⟩ (by decide) (by decide) rfl⟩

/-- C3 counterexample: as literally stated the accept-iff fails — with forward
headers configured and forwarded-header derivation failing, the handler
answers 500, not 200, even though the hash of the selected candidate is a key
of the key table. -/
theorem ServeHTTP_accept_iff_counterexample :
    lookupA (⟨"n", "Auth", "", "", [("HASH", ⟨"id1", [("_id", "id1")]⟩)],
        some [("X-User", "grp")]⟩ : Handler).keys
      ((fun _ => "HASH") "secret") = some ⟨"id1", [("_id", "id1")]⟩ ∧
    ServeHTTP (fun _ => none) (fun _ => "HASH")
      (fun _ _ => .error "derivation failure")
      ⟨"n", "Auth", "", "", [("HASH", ⟨"id1", [("_id", "id1")]⟩)],
        some [("X-User", "grp")]⟩
      ⟨[("Auth", "secret")], []⟩ = 500 := by
  exact ⟨by decide, by decide⟩

/-! ## Traefik IngressRoute reviewer (route-reference rewrite)

Modelled from the spec: `TraefikIngressRoute.Review` is not under src/ (only
its test fixture is). Spec §4.3: "for every route referencing the *previous*
policy's managed resource ..., swap that single reference for the new
policy's managed-resource reference, preserving the position and all
unrelated references verbatim, in original order. If a route has no reference
to the previous policy's resource but a policy annotation newly appears,
append the new reference at the end of that route's reference list"; the
emitted patch is a single replace of `/spec/routes` (test fixture in
src/unnamed/part_004). -/

/-- A Traefik middleware reference `{name, namespace}`. -/
structure MiddlewareRef where
  Name : String
  Namespace : String
  deriving DecidableEq

/-- A route's service backend (`LoadBalancerSpec` fields used by the fixture). -/
structure Service where
  Name : String
  Namespace : String
  Kind : String
  deriving DecidableEq

/-- A Traefik `Route`. -/
structure Route where
  Match : String
  Kind : String
  Priority : Int
  Services : List Service
  Middlewares : List MiddlewareRef
  deriving DecidableEq

/-- Modelled from the spec: the deterministic managed-middleware name — a
fixed prefix plus the canonical policy name and namespace (fixture:
`my-policy@test` becomes `zz-my-policy-test`). -/
def middlewareName (polName polNs : String) : String :=
  "zz-" ++ polName ++ "-" ++ polNs

/-- Rewrite one route's middleware references: swap each reference to the
previous policy's managed middleware for the new one in place; append the new
reference when the previous one is not referenced. -/
def rewriteMiddlewares (oldRef newRef : MiddlewareRef)
    (refs : List MiddlewareRef) : List MiddlewareRef :=
  if oldRef ∈ refs then refs.map (fun r => if r = oldRef then newRef else r)
  else refs ++ [newRef]

/-- Rewrite one route, leaving every other field untouched. -/
def rewriteRoute (oldRef newRef : MiddlewareRef) (r : Route) : Route :=
  { r with Middlewares := rewriteMiddlewares oldRef newRef r.Middlewares }

/-- A JSON-patch operation replacing the route list. -/
structure RoutePatchOp where
  op : String
  path : String
  value : List Route
  deriving DecidableEq

/-- The route-rewrite patch emitted by the Traefik reviewer on update:
a single replace of `/spec/routes`. -/
def TraefikIngressRouteReview (oldRef newRef : MiddlewareRef)
    (routes : List Route) : List RoutePatchOp :=
  [{ op := "replace", path := "/spec/routes"
     value := routes.map (rewriteRoute oldRef newRef) }]

/-- C2: Traefik route-reference rewrite preserves foreign references — for a
route whose references contain the previous policy's managed-middleware
reference exactly once, the review patch swaps exactly that reference for the
new policy's reference at the same position; every other middleware reference
and every other route field is preserved verbatim and in original order. -/
theorem map_swap_not_mem {α : Type} [DecidableEq α] (l : List α) (a b : α)
    (h : a ∉ l) : l.map (fun x => if x = a then b else x) = l := by
  induction l with
  | nil => rfl
  | cons x xs ih =>
    simp only [List.mem_cons, not_or] at h
    have hx : ¬ x = a := fun hxa => h.1 hxa.symm
    simp [List.map_cons, hx, ih h.2]

theorem traefik_rewrite_preserves (oldRef newRef : MiddlewareRef) (r : Route)
    (pre post : List MiddlewareRef)
    (hm : r.Middlewares = pre ++ oldRef :: post)
    (hpre : oldRef ∉ pre) (hpost : oldRef ∉ post) :
    TraefikIngressRouteReview oldRef newRef [r] =
      [{ op := "replace", path := "/spec/routes"
         value := [{ r with Middlewares := pre ++ newRef :: post }] }] := by
  have hmem : oldRef ∈ pre ++ oldRef :: post :=
    List.mem_append_right pre (List.mem_cons_self oldRef post)
  have hmap : (pre ++ oldRef :: post).map
      (fun x => if x = oldRef then newRef else x) = pre ++ newRef :: post := by
    rw [List.map_append, List.map_cons, if_pos rfl,
      map_swap_not_mem pre oldRef newRef hpre,
      map_swap_not_mem post oldRef newRef hpost]
  have hroute : rewriteRoute oldRef newRef r =
      { r with Middlewares := pre ++ newRef :: post } := by
    simp only [rewriteRoute, rewriteMiddlewares, hm]
    rw [if_pos hmem, hmap]
  simp only [TraefikIngressRouteReview, List.map_cons, List.map_nil, hroute]

theorem traefik_rewrite_preserves_witness :
    ((⟨"match", "kind", 2, [⟨"Name", "ns", "kind"⟩],
        [⟨"custom-middleware", "test"⟩,
         ⟨middlewareName "my-old-policy" "test", "test"⟩]⟩ : Route).Middlewares =
      [⟨"custom-middleware", "test"⟩] ++
        ⟨middlewareName "my-old-policy" "test", "test"⟩ :: []) ∧
    TraefikIngressRouteReview
        ⟨middlewareName "my-old-policy" "test", "test"⟩
        ⟨middlewareName "my-policy" "test", "test"⟩
        [⟨"match", "kind", 2, [⟨"Name", "ns", "kind"⟩],
          [⟨"custom-middleware", "test"⟩,
           ⟨middlewareName "my-old-policy" "test", "test"⟩]⟩] =
      [{ op := "replace", path := "/spec/routes"
         value := [{ (⟨"match", "kind", 2, [⟨"Name", "ns", "kind"⟩],
            [⟨"custom-middleware", "test"⟩,
             ⟨middlewareName "my-old-policy" "test", "test"⟩]⟩ : Route) with
           Middlewares := [⟨"custom-middleware", "test"⟩] ++
             ⟨middlewareName "my-policy" "test", "test"⟩ :: [] }] }] :=
  ⟨by decide,
    traefik_rewrite_preserves
      ⟨middlewareName "my-old-policy" "test", "test"⟩
      ⟨middlewareName "my-policy" "test", "test"⟩
      ⟨"match", "kind", 2, [⟨"Name", "ns", "kind"⟩],
        [⟨"custom-middleware", "test"⟩,
         ⟨middlewareName "my-old-policy" "test", "test"⟩]⟩
      [⟨"custom-middleware", "test"⟩] []
      (by decide) (by decide) (by decide)⟩

end HubAgent
